import Mathlib

/-!
Verification of the dependency-resolution service in `api/api.go` of
snyk-go-challenge.  The development shallowly embeds:

* the semantic-version model of the `Masterminds/semver/v3` library at the
  boundary used by the code (`NewVersion`, `Version.Compare`/`LessThan`,
  `Version.String`, and constraints as an abstract check predicate);
* `filterCompatibleVersions` and `highestCompatibleVersion`;
* the recursive `resolveDependencies` walk over a registry, with an explicit
  fuel argument standing for recursion depth (the Go code recurses without
  bound) and a log of registry fetches;
* the HTTP handler `packageHandler` with its `lastRequest` response cache,
  as a state-passing function.

Go maps are modelled as association lists, goroutine fan-out is linearized
(sibling subtrees are disjoint, so the final tree does not depend on the
interleaving), and remote registry calls become lookups in a `Registry`
value.
-/

open Batteries

/-! ### Semantic versions (Masterminds/semver boundary) -/

/-- A parsed semantic version as stored by `semver.NewVersion`: numeric
major/minor/patch, the raw pre-release segments (split on `.`), and the raw
build metadata (ignored by comparison, printed by `String()`). -/
structure SemVersion where
  major : Nat
  minor : Nat
  patch : Nat
  pre : List String
  metadata : String
deriving DecidableEq, Repr

/-- `Version.String()`: canonical `major.minor.patch[-pre][+metadata]`. -/
def SemVersion.toString (v : SemVersion) : String :=
  Nat.repr v.major ++ "." ++ Nat.repr v.minor ++ "." ++ Nat.repr v.patch
    ++ (if v.pre.isEmpty then "" else "-" ++ String.intercalate "." v.pre)
    ++ (if v.metadata.isEmpty then "" else "+" ++ v.metadata)

/-- Character class `[0-9A-Za-z-]` of the semver regex. -/
def isAlnumHyphenChar (c : Char) : Bool := c.isDigit || c.isAlpha || c == '-'

/-- Digits to a number, as `strconv.ParseUint` on an all-digit string. -/
def parseNatDigits (cs : List Char) : Nat :=
  cs.foldl (fun n c => n * 10 + (c.toNat - 48)) 0

/-- Validity of a dot-split pre-release or metadata part: every segment is
nonempty and drawn from `[0-9A-Za-z-]`. -/
def validSegs (parts : List String) : Bool :=
  parts.all (fun p => !p.isEmpty && p.toList.all isAlnumHyphenChar)

/-- Parse the optional `.minor` and `.patch` groups (missing groups default
to `0`, as in `semver.NewVersion`). -/
def parseMinorPatch (rest : List Char) : Option (Nat × Nat × List Char) :=
  match rest with
  | '.' :: more =>
    match more.span Char.isDigit with
    | (minCs, rest2) =>
      if minCs.isEmpty then none
      else
        match rest2 with
        | '.' :: more2 =>
          match more2.span Char.isDigit with
          | (patCs, rest3) =>
            if patCs.isEmpty then none
            else some (parseNatDigits minCs, parseNatDigits patCs, rest3)
        | _ => some (parseNatDigits minCs, 0, rest2)
  | _ => some (0, 0, rest)

/-- Parse the optional `-prerelease` and `+metadata` tail. -/
def parseTail (rest : List Char) : Option (List String × String) :=
  match rest with
  | [] => some ([], "")
  | '-' :: more =>
    let preCs := more.takeWhile (fun c => c ≠ '+')
    let after := more.dropWhile (fun c => c ≠ '+')
    let preParts := (String.mk preCs).splitOn "."
    if validSegs preParts then
      match after with
      | [] => some (preParts, "")
      | '+' :: metaCs =>
        if validSegs ((String.mk metaCs).splitOn ".")
        then some (preParts, String.mk metaCs) else none
      | _ => none
    else none
  | '+' :: metaCs =>
    if validSegs ((String.mk metaCs).splitOn ".")
    then some ([], String.mk metaCs) else none
  | _ => none

/-- `semver.NewVersion`: an optional leading `v`, a digit run for each of
major/minor/patch (minor and patch optional, defaulting to 0), then optional
pre-release and metadata; anything else is a parse error (returned as
`none`). -/
def parseVersion (s : String) : Option SemVersion :=
  let cs := match s.toList with
    | 'v' :: rest => rest
    | cs => cs
  match cs.span Char.isDigit with
  | (majCs, rest) =>
    if majCs.isEmpty then none
    else
      match parseMinorPatch rest with
      | none => none
      | some (mi, pa, rest2) =>
        match parseTail rest2 with
        | none => none
        | some (pre, md) => some ⟨parseNatDigits majCs, mi, pa, pre, md⟩

/-- Lexicographic comparison of lists given an element comparator. -/
def listCmp (c : α → α → Ordering) : List α → List α → Ordering
  | [], [] => .eq
  | [], _ :: _ => .lt
  | _ :: _, [] => .gt
  | x :: xs, y :: ys => (c x y).then (listCmp c xs ys)

/-- Byte-wise (equivalently code-point-wise) character comparison, as Go's
string `<`/`>` on UTF-8 text. -/
def charCmp : Char → Char → Ordering := Ordering.byKey Char.toNat compare

/-- A pre-release segment read as a number when it is all digits
(`strconv.ParseUint` in `comparePrePart`). -/
def parsePreNum (s : String) : Option Nat :=
  if s.isEmpty then none
  else if s.toList.all Char.isDigit then some (parseNatDigits s.toList) else none

/-- `comparePrePart`: numeric segments compare numerically and sort below
alphanumeric segments; alphanumeric segments compare as strings. -/
def compareSeg (s o : String) : Ordering :=
  match parsePreNum s, parsePreNum o with
  | some si, some oi => compare si oi
  | some _, none => .lt
  | none, some _ => .gt
  | none, none => listCmp charCmp s.toList o.toList

/-- `comparePrerelease` plus the surrounding empty-check in
`Version.Compare`: a release (no pre-release) outranks any pre-release;
otherwise segments compare lexicographically with the shorter list lower. -/
def comparePrerelease : List String → List String → Ordering
  | [], [] => .eq
  | [], _ :: _ => .gt
  | _ :: _, [] => .lt
  | a, b => listCmp compareSeg a b

/-- `Version.Compare`: major, then minor, then patch, then pre-release
precedence; build metadata is ignored. -/
def compareVer : SemVersion → SemVersion → Ordering :=
  compareLex (Ordering.byKey SemVersion.major compare)
    (compareLex (Ordering.byKey SemVersion.minor compare)
      (compareLex (Ordering.byKey SemVersion.patch compare)
        (Ordering.byKey SemVersion.pre comparePrerelease)))

/-- The non-strict order used to sort a `semver.Collection`: `a` does not
come after `b`. -/
def semverLE (a b : SemVersion) : Prop := compareVer a b ≠ .gt

instance : DecidableRel semverLE := fun a b =>
  inferInstanceAs (Decidable (compareVer a b ≠ .gt))

/-! ### Version resolver (`highestCompatibleVersion`, `filterCompatibleVersions`) -/

/-- A parsed constraint at the library boundary: all the resolver uses of a
`semver.Constraints` value is its `Check` predicate. -/
structure SemConstraint where
  check : SemVersion → Bool

/-- The two error kinds of the resolver: the error returned by
`semver.NewConstraint` on malformed input, and
`errors.New("no compatible versions found")`. -/
inductive ResolveError where
  | invalidConstraint
  | noCompatibleVersion
deriving DecidableEq, Repr

/-- `filterCompatibleVersions`: walk the available version strings, skip any
that fail `semver.NewVersion`, and keep those passing the constraint check. -/
def filterCompatibleVersions (constraint : SemConstraint) (versions : List String) :
    List SemVersion :=
  versions.filterMap fun version =>
    match parseVersion version with
    | none => none
    | some semVer => if constraint.check semVer then some semVer else none

/-- `highestCompatibleVersion`: parse the constraint (abstracting
`semver.NewConstraint` as a parameter `newConstraint`), filter, fail if
nothing is compatible, otherwise sort ascending and return the string of the
last element. -/
def highestCompatibleVersion (newConstraint : String → Option SemConstraint)
    (constraintStr : String) (versions : List String) : Except ResolveError String :=
  match newConstraint constraintStr with
  | none => .error .invalidConstraint
  | some constraint =>
    let filtered := filterCompatibleVersions constraint versions
    if filtered.length = 0 then .error .noCompatibleVersion
    else
      .ok ((List.insertionSort semverLE filtered).getLastD ⟨0, 0, 0, [], ""⟩).toString

/-! ### Registry and resolution engine -/

/-- `npmPackageResponse`: one version's manifest; `Dependencies` maps each
dependency name to its constraint (a Go map, modelled as an association
list whose keys are unique). -/
structure npmPackageResponse where
  name : String
  version : String
  dependencies : List (String × String)
deriving DecidableEq, Repr

/-- `npmPackageMetaResponse`: only the keys of its `Versions` map are ever
read, so it is modelled as the list of available version strings. -/
structure npmPackageMetaResponse where
  versions : List String
deriving DecidableEq, Repr

/-- `NpmPackageVersion`: a node of the output tree. -/
inductive NpmPackageVersion where
  | mk (name : String) (version : String)
      (dependencies : List (String × NpmPackageVersion))

def NpmPackageVersion.name : NpmPackageVersion → String
  | .mk n _ _ => n

def NpmPackageVersion.version : NpmPackageVersion → String
  | .mk _ v _ => v

def NpmPackageVersion.dependencies :
    NpmPackageVersion → List (String × NpmPackageVersion)
  | .mk _ _ d => d

/-- One outbound registry call: `fetchPackageMeta` (package name) or
`fetchPackage` (name and concrete version). -/
inductive FetchCall where
  | meta (name : String)
  | manifest (name : String) (version : String)
deriving DecidableEq, Repr

/-- The remote registry, as the data its two endpoints would return.
A missing key means the HTTP call or (for `metaResp`) its JSON decode
fails; `some none` in `pkgResp` means the call succeeds but the body is
not valid JSON. -/
structure Registry where
  metaResp : List (String × npmPackageMetaResponse)
  pkgResp : List ((String × String) × Option npmPackageResponse)
deriving DecidableEq, Repr

/-- Go map indexing `m[k]` over an association list. -/
def lookupKV [DecidableEq α] : α → List (α × β) → Option β
  | _, [] => none
  | k, (a, b) :: rest => if k = a then some b else lookupKV k rest

/-- `fetchPackageMeta`: HTTP fetch plus a checked `json.Unmarshal`. -/
def fetchPackageMeta (reg : Registry) (p : String) : Option npmPackageMetaResponse :=
  lookupKV p reg.metaResp

/-- The zero value `json.Unmarshal` leaves behind when the body is not
valid JSON. -/
def zeroNpmPackageResponse : npmPackageResponse := ⟨"", "", []⟩

/-- `fetchPackage`: HTTP fetch whose `json.Unmarshal` error is discarded
(`_ = json.Unmarshal(...)`), so an unparsable body still yields a
zero-value manifest. -/
def fetchPackage (reg : Registry) (name version : String) : Option npmPackageResponse :=
  match lookupKV (name, version) reg.pkgResp with
  | none => none
  | some body => some (body.getD zeroNpmPackageResponse)

/-- The loop body of `resolveDependencies` over the manifest's dependency
map: create the child node keyed by its dependency name and resolve it
recursively (`step` is the recursive call at the next depth). -/
def resolveChildren (step : String → String → Option (NpmPackageVersion × List FetchCall)) :
    List (String × String) → NpmPackageVersion → List FetchCall →
    Option (NpmPackageVersion × List FetchCall)
  | [], pkg, log => some (pkg, log)
  | (depName, depConstraint) :: rest, pkg, log =>
    match step depName depConstraint with
    | none => none
    | some (dep, depLog) =>
      resolveChildren step rest
        (.mk pkg.name pkg.version (pkg.dependencies ++ [(depName, dep)]))
        (log ++ depLog)

/-- `resolveDependencies(pkg, versionConstraint)`: fetch the package meta,
resolve the constraint to a concrete version, fetch that version's
manifest, and recurse into every dependency edge.  Any failure abandons
the node (returning it as it stands) without failing the caller.  `fuel`
bounds the recursion depth; the Go code has no such bound, so a run that
needs more than any finite fuel (`none` for every fuel) is a
non-terminating run of the source. -/
def resolveDependencies (reg : Registry)
    (newConstraint : String → Option SemConstraint) :
    Nat → String → String → Option (NpmPackageVersion × List FetchCall)
  | 0 => fun _ _ => none
  | fuel + 1 => fun name versionConstraint =>
    let pkg : NpmPackageVersion := .mk name versionConstraint []
    match fetchPackageMeta reg name with
    | none => some (pkg, [.meta name])
    | some pkgMeta =>
      match highestCompatibleVersion newConstraint versionConstraint pkgMeta.versions with
      | .error _ => some (pkg, [.meta name])
      | .ok concreteVersion =>
        let pkg : NpmPackageVersion := .mk name concreteVersion []
        match fetchPackage reg name concreteVersion with
        | none => some (pkg, [.meta name, .manifest name concreteVersion])
        | some npmPkg =>
          resolveChildren (resolveDependencies reg newConstraint fuel)
            npmPkg.dependencies pkg [.meta name, .manifest name concreteVersion]

/-! ### HTTP handler (`packageHandler`) with the `lastRequest` cache -/

/-- An incoming request: its literal `RequestURI` and the `mux.Vars` map. -/
structure Request where
  uri : String
  vars : List (String × String)
deriving DecidableEq, Repr

/-- What the handler writes to the `ResponseWriter`: the status code passed
to `WriteHeader` (or 200 written implicitly with the body), and the body
bytes, if any. -/
structure HandlerOutput where
  status : Option Nat
  body : Option String
deriving DecidableEq, Repr

/-- Result of one handler invocation: the write to the response, the
`lastRequest` cache afterwards, and the registry fetches performed. -/
structure HandlerResult where
  out : HandlerOutput
  cache : List (String × String)
  fetches : List FetchCall
deriving DecidableEq, Repr

/-- `packageHandler`: serve a cached byte string for a repeated
`RequestURI`; otherwise check the `package` and `version` vars (returning
without writing on a miss), resolve the tree, and either report 500 on a
serialization error or write the tree and cache it.  `marshal` abstracts
`json.MarshalIndent`; `none` is a resolver run that never terminates. -/
def packageHandler (reg : Registry) (newConstraint : String → Option SemConstraint)
    (marshal : NpmPackageVersion → Option String) (fuel : Nat)
    (lastRequest : List (String × String)) (r : Request) : Option HandlerResult :=
  match lookupKV r.uri lastRequest with
  | some cached => some ⟨⟨some 200, some cached⟩, lastRequest, []⟩
  | none =>
    match lookupKV "package" r.vars with
    | none => some ⟨⟨none, none⟩, lastRequest, []⟩
    | some pkgName =>
      match lookupKV "version" r.vars with
      | none => some ⟨⟨none, none⟩, lastRequest, []⟩
      | some pkgVersion =>
        match resolveDependencies reg newConstraint fuel pkgName pkgVersion with
        | none => none
        | some (rootPkg, log) =>
          match marshal rootPkg with
          | none => some ⟨⟨some 500, none⟩, lastRequest, log⟩
          | some stringified =>
            some ⟨⟨some 200, some stringified⟩, (r.uri, stringified) :: lastRequest, log⟩

/-! ### Well-formedness and structural predicates -/

/-- A manifest entry is well formed when its dependency keys are distinct,
which every Go `map[string]string` guarantees by construction. -/
def manifestOK : Option npmPackageResponse → Prop
  | none => True
  | some r => (r.dependencies.map Prod.fst).Nodup

instance : (o : Option npmPackageResponse) → Decidable (manifestOK o)
  | none => .isTrue trivial
  | some _ => inferInstanceAs (Decidable (List.Nodup _))

/-- A registry is well formed when every stored manifest has distinct
dependency keys. -/
def RegWF (reg : Registry) : Prop := ∀ e ∈ reg.pkgResp, manifestOK e.2

instance : (reg : Registry) → Decidable (RegWF reg) := fun reg =>
  inferInstanceAs (Decidable (∀ e ∈ reg.pkgResp, manifestOK e.2))

/-- In a tree, every child is keyed by its own package name and sibling
keys under one parent are distinct. -/
inductive ChildKeysOK : NpmPackageVersion → Prop where
  | mk (name version : String) (deps : List (String × NpmPackageVersion)) :
      (∀ p ∈ deps, p.1 = p.2.name) →
      (∀ p ∈ deps, ChildKeysOK p.2) →
      (deps.map Prod.fst).Nodup →
      ChildKeysOK (.mk name version deps)

/-! ### Concrete instances used by the witnesses -/

/-- A concrete constraint at the library boundary: the exact-version
constraint `semver.NewConstraint` produces for a plain version string. -/
def exactConstraint (pv : SemVersion) : SemConstraint :=
  ⟨fun v => compareVer v pv == .eq⟩

/-- A concrete `semver.NewConstraint`: parse the string as a plain version
and require exactly that version. -/
def demoNewConstraint (s : String) : Option SemConstraint :=
  (parseVersion s).map exactConstraint

/-- A registry holding a diamond: `root` depends on `a` and `b`, each of
which depends on the same `leaf` package. -/
def diamondReg : Registry :=
  ⟨[("root", ⟨["1.0.0"]⟩), ("a", ⟨["1.0.0"]⟩), ("b", ⟨["1.0.0"]⟩),
    ("leaf", ⟨["1.0.0"]⟩)],
   [(("root", "1.0.0"), some ⟨"root", "1.0.0", [("a", "1.0.0"), ("b", "1.0.0")]⟩),
    (("a", "1.0.0"), some ⟨"a", "1.0.0", [("leaf", "1.0.0")]⟩),
    (("b", "1.0.0"), some ⟨"b", "1.0.0", [("leaf", "1.0.0")]⟩),
    (("leaf", "1.0.0"), some ⟨"leaf", "1.0.0", []⟩)]⟩

/-- A registry with a self-cycle: `a@1.0.0` depends on `a@1.0.0`. -/
def cycReg : Registry :=
  ⟨[("a", ⟨["1.0.0"]⟩)],
   [(("a", "1.0.0"), some ⟨"a", "1.0.0", [("a", "1.0.0")]⟩)]⟩

/-- A two-package registry: `root` depends on `leaf` alone. -/
def simpleReg : Registry :=
  ⟨[("root", ⟨["1.0.0"]⟩), ("leaf", ⟨["1.0.0"]⟩)],
   [(("root", "1.0.0"), some ⟨"root", "1.0.0", [("leaf", "1.0.0")]⟩),
    (("leaf", "1.0.0"), some ⟨"leaf", "1.0.0", []⟩)]⟩

/-- A registry exercising the failure paths: `root` depends on `bad`
(whose meta fetch fails), on `badjson` (whose manifest body is not valid
JSON), and on `good` (which resolves normally). -/
def failReg : Registry :=
  ⟨[("root", ⟨["1.0.0"]⟩), ("badjson", ⟨["1.0.0"]⟩), ("good", ⟨["1.0.0"]⟩)],
   [(("root", "1.0.0"),
      some ⟨"root", "1.0.0",
        [("bad", "2.0.0"), ("badjson", "1.0.0"), ("good", "1.0.0")]⟩),
    (("badjson", "1.0.0"), none),
    (("good", "1.0.0"), some ⟨"good", "1.0.0", []⟩)]⟩

/-- The request the witnesses replay against `simpleReg`. -/
def demoRequest : Request :=
  ⟨"/package/root/1.0.0", [("package", "root"), ("version", "1.0.0")]⟩

/-- A total serializer standing in for `json.MarshalIndent`, which cannot
fail on this struct type. -/
def demoMarshal (t : NpmPackageVersion) : Option String :=
  some (t.name ++ "@" ++ t.version)

/-! ### The semver comparator is a total transitive comparison -/

theorem listCmp_swap (c : α → α → Ordering) [OrientedCmp c] :
    ∀ x y, (listCmp c x y).swap = listCmp c y x
  | [], [] => rfl
  | [], _ :: _ => rfl
  | _ :: _, [] => rfl
  | x :: xs, y :: ys => by
    simp only [listCmp, Ordering.swap_then]
    rw [OrientedCmp.symm x y, listCmp_swap c xs ys]

instance (c : α → α → Ordering) [OrientedCmp c] : OrientedCmp (listCmp c) :=
  ⟨fun x y => listCmp_swap c x y⟩

theorem listCmp_le_trans (c : α → α → Ordering) [TransCmp c] :
    ∀ (x y z : List α),
      listCmp c x y ≠ .gt → listCmp c y z ≠ .gt → listCmp c x z ≠ .gt
  | [], _, z => fun _ _ => by cases z <;> simp [listCmp]
  | _ :: _, [], _ => fun h1 _ => (h1 rfl).elim
  | _ :: _, _ :: _, [] => fun _ h2 => (h2 rfl).elim
  | x :: xs, y :: ys, z :: zs => fun h1 h2 => by
    simp only [listCmp, ne_eq, Ordering.then_eq_gt, not_or, not_and] at h1 h2 ⊢
    obtain ⟨h1a, h1b⟩ := h1
    obtain ⟨h2a, h2b⟩ := h2
    refine ⟨TransCmp.le_trans h1a h2a, fun he => ?_⟩
    cases hxy : c x y with
    | gt => exact (h1a hxy).elim
    | lt => simp [TransCmp.lt_le_trans hxy h2a] at he
    | eq =>
      have hyz : c y z = .eq := by rw [← TransCmp.cmp_congr_left hxy]; exact he
      exact listCmp_le_trans c xs ys zs (h1b hxy) (h2b hyz)

instance (c : α → α → Ordering) [TransCmp c] : TransCmp (listCmp c) where
  le_trans h1 h2 := listCmp_le_trans c _ _ _ h1 h2

instance : TransCmp charCmp :=
  inferInstanceAs (TransCmp (Ordering.byKey Char.toNat compare))

theorem compareSeg_swap (s o : String) : (compareSeg s o).swap = compareSeg o s := by
  unfold compareSeg
  cases hs : parsePreNum s <;> cases ho : parsePreNum o
  case none.none => exact listCmp_swap charCmp _ _
  case none.some => rfl
  case some.none => rfl
  case some.some si oi =>
    show (compare si oi).swap = compare oi si
    exact OrientedCmp.symm si oi

theorem compareSeg_le_trans {s o u : String}
    (h1 : compareSeg s o ≠ .gt) (h2 : compareSeg o u ≠ .gt) : compareSeg s u ≠ .gt := by
  unfold compareSeg at h1 h2 ⊢
  cases hs : parsePreNum s <;> cases ho : parsePreNum o <;> cases hu : parsePreNum u <;>
      rw [hs, ho] at h1 <;> rw [ho, hu] at h2
  case none.none.none => exact listCmp_le_trans charCmp s.toList o.toList u.toList h1 h2
  case none.none.some => exact (h2 rfl).elim
  case none.some.none => exact (h1 rfl).elim
  case none.some.some => exact (h1 rfl).elim
  case some.none.none => exact fun h => nomatch h
  case some.none.some => exact (h2 rfl).elim
  case some.some.none => exact fun h => nomatch h
  case some.some.some si oi ui =>
    show compare si ui ≠ Ordering.gt
    exact TransCmp.le_trans (show compare si oi ≠ Ordering.gt from h1)
      (show compare oi ui ≠ Ordering.gt from h2)

instance : TransCmp compareSeg where
  symm s o := compareSeg_swap s o
  le_trans := compareSeg_le_trans

theorem comparePrerelease_swap :
    ∀ a b, (comparePrerelease a b).swap = comparePrerelease b a
  | [], [] => rfl
  | [], _ :: _ => rfl
  | _ :: _, [] => rfl
  | _ :: _, _ :: _ => listCmp_swap compareSeg _ _

theorem comparePrerelease_le_trans :
    ∀ {a b c : List String},
      comparePrerelease a b ≠ .gt → comparePrerelease b c ≠ .gt →
      comparePrerelease a c ≠ .gt
  | [], [], [], _, _ => by simp [comparePrerelease]
  | [], [], _ :: _, _, h2 => (h2 rfl).elim
  | [], _ :: _, _, h1, _ => (h1 rfl).elim
  | _ :: _, [], [], _, _ => by simp [comparePrerelease]
  | _ :: _, [], _ :: _, _, h2 => (h2 rfl).elim
  | _ :: _, _ :: _, [], _, _ => by simp [comparePrerelease]
  | x :: xs, y :: ys, z :: zs, h1, h2 => listCmp_le_trans compareSeg _ _ _ h1 h2

instance : TransCmp comparePrerelease where
  symm a b := comparePrerelease_swap a b
  le_trans := comparePrerelease_le_trans

instance : TransCmp compareVer :=
  inferInstanceAs (TransCmp (compareLex (Ordering.byKey SemVersion.major compare)
    (compareLex (Ordering.byKey SemVersion.minor compare)
      (compareLex (Ordering.byKey SemVersion.patch compare)
        (Ordering.byKey SemVersion.pre comparePrerelease)))))

instance : IsTotal SemVersion semverLE := ⟨fun a b => by
  by_cases h : compareVer a b = .gt
  · have hlt : compareVer b a = .lt := OrientedCmp.cmp_eq_gt.mp h
    right
    simp [semverLE, hlt]
  · exact .inl h⟩

instance : IsTrans SemVersion semverLE := ⟨fun _ _ _ => TransCmp.le_trans⟩

theorem semverLE_refl (a : SemVersion) : semverLE a a := by
  simp [semverLE, OrientedCmp.cmp_refl]

theorem getLastD_mem : ∀ (l : List α) (d : α), l ≠ [] → l.getLastD d ∈ l
  | [x], _, _ => by simp
  | x :: y :: ys, _, _ => by
    rw [List.getLastD_cons]
    exact List.mem_cons_of_mem x (getLastD_mem (y :: ys) x (by simp))

theorem sorted_getLastD_max :
    ∀ (l : List SemVersion), l.Sorted semverLE →
      ∀ (d a : SemVersion), a ∈ l → semverLE a (l.getLastD d)
  | [], _, _, _, ha => absurd ha (by simp)
  | [x], _, d, a, ha => by
    have hax : a = x := by simpa using ha
    subst hax
    simpa [List.getLastD] using semverLE_refl a
  | x :: y :: ys, hs, d, a, ha => by
    rw [List.getLastD_cons]
    rcases List.mem_cons.mp ha with h1 | h2
    · subst h1
      exact List.rel_of_sorted_cons hs _ (getLastD_mem (y :: ys) _ (by simp))
    · exact sorted_getLastD_max (y :: ys) hs.of_cons x a h2

theorem mem_filterCompatibleVersions {c : SemConstraint} {V : List String}
    {v : SemVersion} :
    v ∈ filterCompatibleVersions c V ↔
      ∃ s ∈ V, parseVersion s = some v ∧ c.check v = true := by
  unfold filterCompatibleVersions
  rw [List.mem_filterMap]
  constructor
  · rintro ⟨s, hsV, heq⟩
    refine ⟨s, hsV, ?_⟩
    cases hp : parseVersion s with
    | none => simp [hp] at heq
    | some w =>
      simp only [hp] at heq
      by_cases hc : c.check w
      · rw [if_pos hc] at heq
        cases heq
        exact ⟨rfl, hc⟩
      · rw [if_neg hc] at heq
        cases heq
  · rintro ⟨s, hsV, hp, hc⟩
    refine ⟨s, hsV, ?_⟩
    simp [hp, hc]

/-! ### Claim C1: the version resolver -/

/-- C1: for every constraint string and every set of available version
strings, `highestCompatibleVersion` returns `InvalidConstraint` when the
constraint fails to parse; otherwise the compatible versions are exactly
the parseable strings passing the constraint check, and the resolver
returns `NoCompatibleVersion` when there are none of those, and the
string of a maximum compatible version (under semantic-version
precedence) otherwise. -/
theorem c1_highestCompatibleVersion_correct
    (newConstraint : String → Option SemConstraint) (C : String) (V : List String) :
    (newConstraint C = none →
      highestCompatibleVersion newConstraint C V = .error .invalidConstraint)
  ∧ (∀ c, newConstraint C = some c →
      (∀ v, v ∈ filterCompatibleVersions c V ↔
        ∃ s ∈ V, parseVersion s = some v ∧ c.check v = true)
      ∧ (filterCompatibleVersions c V = [] →
          highestCompatibleVersion newConstraint C V = .error .noCompatibleVersion)
      ∧ (filterCompatibleVersions c V ≠ [] →
          ∃ v, v ∈ filterCompatibleVersions c V
            ∧ highestCompatibleVersion newConstraint C V = .ok v.toString
            ∧ ∀ w ∈ filterCompatibleVersions c V, semverLE w v)) := by
  refine ⟨fun h => by simp [highestCompatibleVersion, h],
    fun c hc => ⟨fun v => mem_filterCompatibleVersions, fun hnil => ?_, fun hne => ?_⟩⟩
  · simp [highestCompatibleVersion, hc, hnil]
  · have hlen : ¬(filterCompatibleVersions c V).length = 0 := by
      simpa [List.length_eq_zero] using hne
    have hsorted := List.sorted_insertionSort semverLE (filterCompatibleVersions c V)
    have hsne : List.insertionSort semverLE (filterCompatibleVersions c V) ≠ [] := by
      intro h0
      refine hlen ?_
      have hl := List.length_insertionSort semverLE (filterCompatibleVersions c V)
      rw [h0] at hl
      simpa using hl.symm
    refine ⟨(List.insertionSort semverLE
        (filterCompatibleVersions c V)).getLastD ⟨0, 0, 0, [], ""⟩, ?_, ?_, ?_⟩
    · exact (List.mem_insertionSort semverLE).mp (getLastD_mem _ _ hsne)
    · simp [highestCompatibleVersion, hc, hlen]
    · intro w hw
      exact sorted_getLastD_max _ hsorted _ w ((List.mem_insertionSort semverLE).mpr hw)

/-- Witness for C1: the resolver applied to constraint `1.0.0` over
`["0.9.0", "1.0.0", "garbage"]` returns a maximum compatible version. -/
theorem c1_witness :
    ∃ v, v ∈ filterCompatibleVersions (exactConstraint ⟨1, 0, 0, [], ""⟩)
        ["0.9.0", "1.0.0", "garbage"]
      ∧ highestCompatibleVersion demoNewConstraint "1.0.0" ["0.9.0", "1.0.0", "garbage"]
          = .ok v.toString
      ∧ ∀ w ∈ filterCompatibleVersions (exactConstraint ⟨1, 0, 0, [], ""⟩)
          ["0.9.0", "1.0.0", "garbage"], semverLE w v :=
  ((c1_highestCompatibleVersion_correct demoNewConstraint "1.0.0"
      ["0.9.0", "1.0.0", "garbage"]).2 (exactConstraint ⟨1, 0, 0, [], ""⟩) rfl).2.2
    (by decide)

/-! ### Claim C9: unparseable version strings are silently skipped -/

theorem filterCompatibleVersions_drop_unparseable (c : SemConstraint) :
    ∀ V, filterCompatibleVersions c V =
      filterCompatibleVersions c (V.filter fun s => (parseVersion s).isSome)
  | [] => rfl
  | s :: V => by
    have ih := filterCompatibleVersions_drop_unparseable c V
    simp only [filterCompatibleVersions, List.filter_cons, List.filterMap_cons] at ih ⊢
    cases hp : parseVersion s with
    | none => simpa [hp] using ih
    | some w => by_cases hcw : c.check w <;> simp [hp, hcw, List.filterMap_cons, ih]

/-- C9: a version string that fails to parse as a semantic version is
discarded without producing an error: both the filter and the whole
resolver return the same result on `V` as on `V` with the unparseable
strings removed. -/
theorem c9_unparseable_skipped (c : SemConstraint)
    (newConstraint : String → Option SemConstraint) (C : String) (V : List String) :
    filterCompatibleVersions c V =
      filterCompatibleVersions c (V.filter fun s => (parseVersion s).isSome)
  ∧ highestCompatibleVersion newConstraint C V =
      highestCompatibleVersion newConstraint C
        (V.filter fun s => (parseVersion s).isSome) := by
  refine ⟨filterCompatibleVersions_drop_unparseable c V, ?_⟩
  simp only [highestCompatibleVersion, ← filterCompatibleVersions_drop_unparseable]

/-! ### Engine lemmas -/

theorem lookupKV_mem [DecidableEq α] :
    ∀ (l : List (α × β)) (k : α) (b : β), lookupKV k l = some b → (k, b) ∈ l
  | [], _, _ => fun h => nomatch h
  | (a, c) :: rest, k, b => fun h => by
    by_cases hk : k = a
    · subst hk
      simp only [lookupKV, if_pos rfl] at h
      cases h
      exact List.mem_cons_self _ _
    · simp only [lookupKV, if_neg hk] at h
      exact List.mem_cons_of_mem _ (lookupKV_mem rest k b h)

/-- Unfolding the four control paths of one `resolveDependencies` call. -/
theorem resolveDependencies_succ_cases (reg : Registry)
    (nc : String → Option SemConstraint) (fuel : Nat) (name c : String) :
    (fetchPackageMeta reg name = none ∧
       resolveDependencies reg nc (fuel + 1) name c =
         some (.mk name c [], [.meta name]))
  ∨ (∃ m e, fetchPackageMeta reg name = some m ∧
       highestCompatibleVersion nc c m.versions = .error e ∧
       resolveDependencies reg nc (fuel + 1) name c =
         some (.mk name c [], [.meta name]))
  ∨ (∃ m cv, fetchPackageMeta reg name = some m ∧
       highestCompatibleVersion nc c m.versions = .ok cv ∧
       fetchPackage reg name cv = none ∧
       resolveDependencies reg nc (fuel + 1) name c =
         some (.mk name cv [], [.meta name, .manifest name cv]))
  ∨ (∃ m cv npmPkg, fetchPackageMeta reg name = some m ∧
       highestCompatibleVersion nc c m.versions = .ok cv ∧
       fetchPackage reg name cv = some npmPkg ∧
       resolveDependencies reg nc (fuel + 1) name c =
         resolveChildren (resolveDependencies reg nc fuel) npmPkg.dependencies
           (.mk name cv []) [.meta name, .manifest name cv]) := by
  cases hm : fetchPackageMeta reg name with
  | none => exact .inl ⟨rfl, by simp [resolveDependencies, hm]⟩
  | some m =>
    cases hh : highestCompatibleVersion nc c m.versions with
    | error e =>
      exact .inr (.inl ⟨m, e, rfl, hh, by simp [resolveDependencies, hm, hh]⟩)
    | ok cv =>
      cases hp : fetchPackage reg name cv with
      | none =>
        exact .inr (.inr (.inl ⟨m, cv, rfl, hh, hp,
          by simp [resolveDependencies, hm, hh, hp]⟩))
      | some npmPkg =>
        exact .inr (.inr (.inr ⟨m, cv, npmPkg, rfl, hh, hp,
          by simp [resolveDependencies, hm, hh, hp]⟩))

/-- `resolveChildren` keeps the parent's name and version. -/
theorem resolveChildren_name
    (step : String → String → Option (NpmPackageVersion × List FetchCall)) :
    ∀ (deps : List (String × String)) (pkg : NpmPackageVersion)
      (log : List FetchCall) (t : NpmPackageVersion) (l : List FetchCall),
      resolveChildren step deps pkg log = some (t, l) →
      t.name = pkg.name ∧ t.version = pkg.version
  | [], pkg, log, t, l => fun h => by
    simp only [resolveChildren] at h
    cases h
    exact ⟨rfl, rfl⟩
  | (dn, dc) :: rest, pkg, log, t, l => fun h => by
    simp only [resolveChildren] at h
    cases hstep : step dn dc with
    | none => rw [hstep] at h; cases h
    | some pr =>
      obtain ⟨dep, depLog⟩ := pr
      rw [hstep] at h
      have hr := resolveChildren_name step rest
        (.mk pkg.name pkg.version (pkg.dependencies ++ [(dn, dep)]))
        (log ++ depLog) t l h
      simpa [NpmPackageVersion.name, NpmPackageVersion.version] using hr

/-- A resolved node carries the requested package name. -/
theorem resolveDependencies_gives_name (reg : Registry)
    (nc : String → Option SemConstraint) (fuel : Nat) (name c : String)
    (t : NpmPackageVersion) (l : List FetchCall)
    (h : resolveDependencies reg nc fuel name c = some (t, l)) : t.name = name := by
  cases fuel with
  | zero => cases h
  | succ n =>
    rcases resolveDependencies_succ_cases reg nc n name c with
      ⟨_, heq⟩ | ⟨m, e, _, _, heq⟩ | ⟨m, cv, _, _, _, heq⟩ | ⟨m, cv, npmPkg, _, _, _, heq⟩
    · rw [heq] at h; cases h; rfl
    · rw [heq] at h; cases h; rfl
    · rw [heq] at h; cases h; rfl
    · rw [heq] at h
      exact (resolveChildren_name _ _ _ _ _ _ h).1

/-- A well-formed registry only hands out manifests with distinct
dependency keys. -/
theorem fetchPackage_keys_nodup {reg : Registry} (hwf : RegWF reg)
    {name cv : String} {npmPkg : npmPackageResponse}
    (hp : fetchPackage reg name cv = some npmPkg) :
    (npmPkg.dependencies.map Prod.fst).Nodup := by
  unfold fetchPackage at hp
  cases hl : lookupKV (name, cv) reg.pkgResp with
  | none => rw [hl] at hp; cases hp
  | some body =>
    rw [hl] at hp
    cases hp
    cases body with
    | none => simp [zeroNpmPackageResponse]
    | some r =>
      have hm := hwf _ (lookupKV_mem _ _ _ hl)
      simpa [manifestOK] using hm

/-- The child loop preserves the keyed-by-name invariant. -/
theorem resolveChildren_keysOK
    (step : String → String → Option (NpmPackageVersion × List FetchCall))
    (hstep : ∀ dn dc t l, step dn dc = some (t, l) → t.name = dn ∧ ChildKeysOK t) :
    ∀ (deps : List (String × String)) (pkg : NpmPackageVersion)
      (log : List FetchCall) (t : NpmPackageVersion) (l : List FetchCall),
      (∀ p ∈ pkg.dependencies, p.1 = p.2.name) →
      (∀ p ∈ pkg.dependencies, ChildKeysOK p.2) →
      ((pkg.dependencies.map Prod.fst) ++ deps.map Prod.fst).Nodup →
      resolveChildren step deps pkg log = some (t, l) →
      ChildKeysOK t
  | [], pkg, log, t, l => fun h1 h2 h3 heq => by
    simp only [resolveChildren] at heq
    cases heq
    obtain ⟨n, v, d⟩ := pkg
    exact .mk n v d h1 h2 (by simpa using h3)
  | (dn, dc) :: rest, pkg, log, t, l => fun h1 h2 h3 heq => by
    obtain ⟨pn, pv, pd⟩ := pkg
    simp only [resolveChildren] at heq
    cases hstep2 : step dn dc with
    | none => rw [hstep2] at heq; cases heq
    | some pr =>
      obtain ⟨dep, depLog⟩ := pr
      rw [hstep2] at heq
      obtain ⟨hname, hok⟩ := hstep dn dc dep depLog hstep2
      refine resolveChildren_keysOK step hstep rest
        (.mk pn pv (pd ++ [(dn, dep)])) (log ++ depLog) t l ?_ ?_ ?_ heq
      · intro p hp
        simp only [NpmPackageVersion.dependencies] at hp
        rcases List.mem_append.mp hp with hp1 | hp2
        · exact h1 p hp1
        · simp only [List.mem_singleton] at hp2
          subst hp2
          exact hname.symm
      · intro p hp
        simp only [NpmPackageVersion.dependencies] at hp
        rcases List.mem_append.mp hp with hp1 | hp2
        · exact h2 p hp1
        · simp only [List.mem_singleton] at hp2
          subst hp2
          exact hok
      · simpa [NpmPackageVersion.dependencies] using h3

/-- Over a well-formed registry, every tree `resolveDependencies` returns
is keyed by dependency names with no sibling collisions. -/
theorem resolveDependencies_keysOK (reg : Registry)
    (nc : String → Option SemConstraint) (hwf : RegWF reg) :
    ∀ (fuel : Nat) (name c : String) (t : NpmPackageVersion) (l : List FetchCall),
      resolveDependencies reg nc fuel name c = some (t, l) →
      t.name = name ∧ ChildKeysOK t := by
  intro fuel
  induction fuel with
  | zero => intro name c t l h; cases h
  | succ n ih =>
    intro name c t l h
    rcases resolveDependencies_succ_cases reg nc n name c with
      ⟨_, heq⟩ | ⟨m, e, _, _, heq⟩ | ⟨m, cv, _, _, _, heq⟩ |
      ⟨m, cv, npmPkg, _, _, hp, heq⟩
    · rw [heq] at h
      cases h
      exact ⟨rfl, .mk _ _ _ (by simp) (by simp) (by simp)⟩
    · rw [heq] at h
      cases h
      exact ⟨rfl, .mk _ _ _ (by simp) (by simp) (by simp)⟩
    · rw [heq] at h
      cases h
      exact ⟨rfl, .mk _ _ _ (by simp) (by simp) (by simp)⟩
    · rw [heq] at h
      refine ⟨(resolveChildren_name _ _ _ _ _ _ h).1, ?_⟩
      refine resolveChildren_keysOK (resolveDependencies reg nc n)
        (fun dn dc t0 l0 h0 => ⟨(ih dn dc t0 l0 h0).1, (ih dn dc t0 l0 h0).2⟩)
        npmPkg.dependencies (.mk name cv []) [.meta name, .manifest name cv] t l
        (by simp [NpmPackageVersion.dependencies]) (by simp [NpmPackageVersion.dependencies])
        ?_ h
      simpa [NpmPackageVersion.dependencies] using fetchPackage_keys_nodup hwf hp

/-! ### Claim C2: no deduplication of fetches for a shared key -/

/-- C2 is refuted by the code: in the diamond registry the key
`leaf@1.0.0` is reachable via two paths and its manifest is fetched once
per path (twice), and the whole pass logs ten fetches although the four
distinct packages would need only eight (one meta and one manifest each)
under one-fetch-per-key deduplication.  The node-reuse cache in the source
is commented out and marked not working. -/
theorem c2_duplicate_fetches_for_shared_key :
    (resolveDependencies diamondReg demoNewConstraint 10 "root" "1.0.0").map
        (fun p => (p.2.count (.manifest "leaf" "1.0.0"), p.2.length, p.2.dedup.length))
      = some (2, 10, 8) := rfl

/-! ### Claim C3: resolution does not terminate on a cyclic graph -/

/-- C3 is refuted by the code: on the registry where `a@1.0.0` depends on
itself, `resolveDependencies` exhausts every recursion-depth bound, i.e.
the unbounded recursion of the source never terminates: there is no cycle
protection (the source comment admits it is missing). -/
theorem c3_cycle_resolution_diverges :
    ∀ fuel, resolveDependencies cycReg demoNewConstraint fuel "a" "1.0.0" = none := by
  intro fuel
  induction fuel with
  | zero => rfl
  | succ n ih =>
    have step : resolveDependencies cycReg demoNewConstraint (n + 1) "a" "1.0.0" =
        resolveChildren (resolveDependencies cycReg demoNewConstraint n)
          [("a", "1.0.0")] (.mk "a" "1.0.0" []) [.meta "a", .manifest "a" "1.0.0"] := by
      simp [resolveDependencies]
      rfl
    rw [step]
    simp only [resolveChildren, ih]

/-! ### Claim C5: output children are keyed by dependency name -/

/-- C5 as stated is refuted by the code: emitted children are keyed by the
dependency name itself, not by a fresh unique identifier: resolving
`simpleReg` keys the root's single child under exactly the child's own
package name. -/
theorem c5_counterexample_child_key_is_name :
    (resolveDependencies simpleReg demoNewConstraint 5 "root" "1.0.0").map
        (fun p => p.1.dependencies.map (fun q => (q.1, q.2.name)))
      = some [("leaf", "leaf")] := rfl

/-- C5 amended: every emitted child is keyed by the dependency name (which
equals the child node's own name); under a well-formed registry the keys
within one parent are nevertheless distinct, because each manifest maps a
dependency name to a single constraint and each parent owns its own map. -/
theorem c5_children_keyed_by_name (reg : Registry)
    (nc : String → Option SemConstraint) (hwf : RegWF reg) (fuel : Nat)
    (name c : String) (t : NpmPackageVersion) (l : List FetchCall)
    (h : resolveDependencies reg nc fuel name c = some (t, l)) : ChildKeysOK t :=
  (resolveDependencies_keysOK reg nc hwf fuel name c t l h).2

/-- Witness for the amended C5 on the concrete two-package registry. -/
theorem c5_witness :
    ChildKeysOK (.mk "root" "1.0.0" [("leaf", .mk "leaf" "1.0.0" [])]) :=
  c5_children_keyed_by_name simpleReg demoNewConstraint (by decide) 5 "root" "1.0.0"
    (.mk "root" "1.0.0" [("leaf", .mk "leaf" "1.0.0" [])])
    [.meta "root", .manifest "root" "1.0.0", .meta "leaf", .manifest "leaf" "1.0.0"]
    rfl

/-! ### Claim C6: failures are locally contained -/

/-- When every child resolution returns, the loop over a manifest never
fails and appends exactly one child per dependency edge. -/
theorem resolveChildren_total
    (step : String → String → Option (NpmPackageVersion × List FetchCall))
    (hstep : ∀ dn dc, (step dn dc).isSome) :
    ∀ (deps : List (String × String)) (pkg : NpmPackageVersion) (log : List FetchCall),
      ∃ t l, resolveChildren step deps pkg log = some (t, l) ∧
        t.dependencies.length = pkg.dependencies.length + deps.length
  | [], pkg, log => ⟨pkg, log, rfl, by simp⟩
  | (dn, dc) :: rest, pkg, log => by
    obtain ⟨pn, pv, pd⟩ := pkg
    cases hs : step dn dc with
    | none =>
      have hcontra := hstep dn dc
      rw [hs] at hcontra
      simp at hcontra
    | some pr =>
      obtain ⟨dep, depLog⟩ := pr
      obtain ⟨t, l, hrec, hlen⟩ := resolveChildren_total step hstep rest
        (.mk pn pv (pd ++ [(dn, dep)])) (log ++ depLog)
      refine ⟨t, l, ?_, ?_⟩
      · simp only [resolveChildren, hs]
        exact hrec
      · simp [NpmPackageVersion.dependencies] at hlen ⊢
        omega

/-- C6: a failure while resolving a single node is locally contained:
whichever step fails (meta fetch, version resolution, or manifest fetch),
the node is returned as a childless leaf instead of an error; the loop
over sibling edges never fails when its children return; and the request
still completes with a 200 whenever the root resolution returns and
serializes. -/
theorem c6_failure_locally_contained (reg : Registry)
    (nc : String → Option SemConstraint) (fuel : Nat) (name c : String) :
    (fetchPackageMeta reg name = none →
       resolveDependencies reg nc (fuel + 1) name c =
         some (.mk name c [], [.meta name]))
  ∧ (∀ m e, fetchPackageMeta reg name = some m →
       highestCompatibleVersion nc c m.versions = .error e →
       resolveDependencies reg nc (fuel + 1) name c =
         some (.mk name c [], [.meta name]))
  ∧ (∀ m cv, fetchPackageMeta reg name = some m →
       highestCompatibleVersion nc c m.versions = .ok cv →
       fetchPackage reg name cv = none →
       resolveDependencies reg nc (fuel + 1) name c =
         some (.mk name cv [], [.meta name, .manifest name cv]))
  ∧ (∀ (step : String → String → Option (NpmPackageVersion × List FetchCall)),
       (∀ dn dc, (step dn dc).isSome) →
       ∀ deps pkg log, ∃ t l, resolveChildren step deps pkg log = some (t, l)
         ∧ t.dependencies.length = pkg.dependencies.length + deps.length)
  ∧ (∀ (marshal : NpmPackageVersion → Option String) (st : List (String × String))
       (r : Request) (pkgName pkgVersion : String) (t : NpmPackageVersion)
       (l : List FetchCall) (s : String),
       lookupKV r.uri st = none →
       lookupKV "package" r.vars = some pkgName →
       lookupKV "version" r.vars = some pkgVersion →
       resolveDependencies reg nc fuel pkgName pkgVersion = some (t, l) →
       marshal t = some s →
       packageHandler reg nc marshal fuel st r =
         some ⟨⟨some 200, some s⟩, (r.uri, s) :: st, l⟩) := by
  refine ⟨?_, ?_, ?_, ?_, ?_⟩
  · intro hm
    simp [resolveDependencies, hm]
  · intro m e hm hh
    simp [resolveDependencies, hm, hh]
  · intro m cv hm hh hp
    simp [resolveDependencies, hm, hh, hp]
  · exact fun step hstep => resolveChildren_total step hstep
  · intro marshal st r pkgName pkgVersion t l s hcache hpkg hver hres hmar
    simp [packageHandler, hcache, hpkg, hver, hres, hmar]

/-- Witness for C6: the `bad` node of `failReg` fails its meta fetch and
is returned as a leaf, while the whole request over `failReg` still
answers 200 with the serialized root. -/
theorem c6_witness :
    resolveDependencies failReg demoNewConstraint 1 "bad" "2.0.0"
        = some (.mk "bad" "2.0.0" [], [.meta "bad"])
  ∧ packageHandler failReg demoNewConstraint demoMarshal 5 []
        ⟨"/package/root/1.0.0", [("package", "root"), ("version", "1.0.0")]⟩
      = some ⟨⟨some 200, some "root@1.0.0"⟩,
          [("/package/root/1.0.0", "root@1.0.0")],
          [.meta "root", .manifest "root" "1.0.0", .meta "bad", .meta "badjson",
           .manifest "badjson" "1.0.0", .meta "good", .manifest "good" "1.0.0"]⟩ :=
  ⟨(c6_failure_locally_contained failReg demoNewConstraint 0 "bad" "2.0.0").1 rfl,
   (c6_failure_locally_contained failReg demoNewConstraint 5 "root" "1.0.0").2.2.2.2
     demoMarshal [] ⟨"/package/root/1.0.0", [("package", "root"), ("version", "1.0.0")]⟩
     "root" "1.0.0" _ _ "root@1.0.0" rfl rfl rfl rfl rfl⟩

/-! ### Claim C8: the version field of a failed node -/

/-- C8 as stated is refuted by the code: a node whose resolution fails
still reports a version value: the field holds the raw constraint the
node was created with (here `^1.0.0`), not an empty/unset value. -/
theorem c8_counterexample_failed_node_reports_version :
    (resolveDependencies failReg demoNewConstraint 3 "bad" "^1.0.0").map
        (fun p => p.1.version) = some "^1.0.0"
    ∧ ("^1.0.0" : String) ≠ "" :=
  ⟨rfl, by decide⟩

/-- C8 amended: the version field holds the requested constraint from
node creation until version resolution succeeds, at which point it is
overwritten with the concrete resolved version: a node that failed before
version resolution reports the constraint, any other node reports the
concrete version. -/
theorem c8_version_field_lifecycle (reg : Registry)
    (nc : String → Option SemConstraint) (fuel : Nat) (name c : String)
    (t : NpmPackageVersion) (l : List FetchCall)
    (h : resolveDependencies reg nc (fuel + 1) name c = some (t, l)) :
    t.version = c ∨
      ∃ m cv, fetchPackageMeta reg name = some m ∧
        highestCompatibleVersion nc c m.versions = .ok cv ∧ t.version = cv := by
  rcases resolveDependencies_succ_cases reg nc fuel name c with
    ⟨_, heq⟩ | ⟨m, e, _, _, heq⟩ | ⟨m, cv, hm, hh, _, heq⟩ |
    ⟨m, cv, npmPkg, hm, hh, _, heq⟩
  · rw [heq] at h; cases h; exact .inl rfl
  · rw [heq] at h; cases h; exact .inl rfl
  · rw [heq] at h; cases h; exact .inr ⟨m, cv, hm, hh, rfl⟩
  · rw [heq] at h
    exact .inr ⟨m, cv, hm, hh, (resolveChildren_name _ _ _ _ _ _ h).2⟩

/-- Witness for the amended C8: the failed `bad` node reports its
constraint string as its version. -/
theorem c8_witness :
    (NpmPackageVersion.mk "bad" "^1.0.0" []).version = "^1.0.0" ∨
      ∃ m cv, fetchPackageMeta failReg "bad" = some m ∧
        highestCompatibleVersion demoNewConstraint "^1.0.0" m.versions = .ok cv ∧
        (NpmPackageVersion.mk "bad" "^1.0.0" []).version = cv :=
  c8_version_field_lifecycle failReg demoNewConstraint 0 "bad" "^1.0.0"
    (.mk "bad" "^1.0.0" []) [.meta "bad"] rfl

/-! ### Claim C10: invalid manifest bodies yield a zero-value manifest -/

/-- C10: when the manifest endpoint answers but the body is not valid
JSON, `fetchPackage` still returns success with the zero-value manifest
(no dependencies), and the resolver emits the package as a leaf with no
children rather than a failed node. -/
theorem c10_invalid_manifest_zero_value (reg : Registry)
    (nc : String → Option SemConstraint) (fuel : Nat) (name c cv : String)
    (m : npmPackageMetaResponse)
    (hm : fetchPackageMeta reg name = some m)
    (hh : highestCompatibleVersion nc c m.versions = .ok cv)
    (hbody : lookupKV (name, cv) reg.pkgResp = some none) :
    fetchPackage reg name cv = some zeroNpmPackageResponse
  ∧ zeroNpmPackageResponse.dependencies = []
  ∧ resolveDependencies reg nc (fuel + 1) name c =
      some (.mk name cv [], [.meta name, .manifest name cv]) := by
  have hfp : fetchPackage reg name cv = some zeroNpmPackageResponse := by
    simp [fetchPackage, hbody]
  refine ⟨hfp, rfl, ?_⟩
  simp [resolveDependencies, hm, hh, hfp, zeroNpmPackageResponse, resolveChildren]

/-- Witness for C10 on the `badjson` package of `failReg`. -/
theorem c10_witness :
    fetchPackage failReg "badjson" "1.0.0" = some zeroNpmPackageResponse
  ∧ zeroNpmPackageResponse.dependencies = []
  ∧ resolveDependencies failReg demoNewConstraint 3 "badjson" "1.0.0" =
      some (.mk "badjson" "1.0.0" [], [.meta "badjson", .manifest "badjson" "1.0.0"]) :=
  c10_invalid_manifest_zero_value failReg demoNewConstraint 2 "badjson" "1.0.0" "1.0.0"
    ⟨["1.0.0"]⟩ rfl rfl rfl

/-! ### Claim C4: repeated identical requests are served from the cache -/

/-- C4: issuing the identical request a second time (same literal request
URI, name and constraint as given) writes byte-identical output, and the
second call performs zero registry fetches: after a successful first call
it is served from the `lastRequest` response cache, and a first call that
returned without writing (missing vars) repeats identically without
fetching. -/
theorem c4_repeat_request_cached (reg : Registry)
    (nc : String → Option SemConstraint) (marshal : NpmPackageVersion → Option String)
    (fuel : Nat) (st : List (String × String)) (r : Request) (out1 : HandlerResult)
    (hm : ∀ t, (marshal t).isSome)
    (h1 : packageHandler reg nc marshal fuel st r = some out1) :
    ∃ out2, packageHandler reg nc marshal fuel out1.cache r = some out2
      ∧ out2.out = out1.out ∧ out2.fetches = [] := by
  cases hc : lookupKV r.uri st with
  | some cached =>
    have hfirst : packageHandler reg nc marshal fuel st r =
        some ⟨⟨some 200, some cached⟩, st, []⟩ := by simp [packageHandler, hc]
    rw [hfirst] at h1
    cases h1
    exact ⟨⟨⟨some 200, some cached⟩, st, []⟩, by simp [packageHandler, hc], rfl, rfl⟩
  | none =>
    cases hp : lookupKV "package" r.vars with
    | none =>
      have hfirst : packageHandler reg nc marshal fuel st r =
          some ⟨⟨none, none⟩, st, []⟩ := by simp [packageHandler, hc, hp]
      rw [hfirst] at h1
      cases h1
      exact ⟨⟨⟨none, none⟩, st, []⟩, by simp [packageHandler, hc, hp], rfl, rfl⟩
    | some pkgName =>
      cases hv : lookupKV "version" r.vars with
      | none =>
        have hfirst : packageHandler reg nc marshal fuel st r =
            some ⟨⟨none, none⟩, st, []⟩ := by simp [packageHandler, hc, hp, hv]
        rw [hfirst] at h1
        cases h1
        exact ⟨⟨⟨none, none⟩, st, []⟩, by simp [packageHandler, hc, hp, hv], rfl, rfl⟩
      | some pkgVersion =>
        cases hres : resolveDependencies reg nc fuel pkgName pkgVersion with
        | none =>
          have hfirst : packageHandler reg nc marshal fuel st r = none := by
            simp [packageHandler, hc, hp, hv, hres]
          rw [hfirst] at h1
          cases h1
        | some pr =>
          obtain ⟨rootPkg, log⟩ := pr
          cases hmar : marshal rootPkg with
          | none =>
            have hsome := hm rootPkg
            rw [hmar] at hsome
            simp at hsome
          | some stringified =>
            have hfirst : packageHandler reg nc marshal fuel st r =
                some ⟨⟨some 200, some stringified⟩, (r.uri, stringified) :: st, log⟩ := by
              simp [packageHandler, hc, hp, hv, hres, hmar]
            rw [hfirst] at h1
            cases h1
            refine ⟨⟨⟨some 200, some stringified⟩, (r.uri, stringified) :: st, []⟩,
              ?_, rfl, rfl⟩
            simp [packageHandler, lookupKV]

/-- Witness for C4: replaying the demo request against `simpleReg`. -/
theorem c4_witness :
    ∃ out1 out2,
      packageHandler simpleReg demoNewConstraint demoMarshal 5 [] demoRequest
        = some out1
      ∧ packageHandler simpleReg demoNewConstraint demoMarshal 5 out1.cache demoRequest
        = some out2
      ∧ out2.out = out1.out ∧ out2.fetches = [] := by
  obtain ⟨out2, h2, h3, h4⟩ :=
    c4_repeat_request_cached simpleReg demoNewConstraint demoMarshal 5 [] demoRequest
      _ (fun t => rfl) rfl
  exact ⟨_, out2, rfl, h2, h3, h4⟩

/-! ### Claim C7: request-level failure modes -/

/-- C7 as stated is refuted by the code: a request whose `version` var is
missing is not surfaced as a server error: the handler logs and returns
without writing any status code or body at all (no 5xx is written). -/
theorem c7_counterexample_missing_var_writes_no_status :
    packageHandler simpleReg demoNewConstraint demoMarshal 5 []
        ⟨"/package/root", [("package", "root")]⟩
      = some ⟨⟨none, none⟩, [], []⟩ := rfl

/-- C7 amended: the only request-level outcomes are success (200 with the
serialized tree, also on a cache hit), serialization failure (500 with no
body), and malformed request parameters (missing `package` or `version`
var), which return without writing any status rather than surfacing a
server error. -/
theorem c7_request_level_outcomes (reg : Registry)
    (nc : String → Option SemConstraint) (marshal : NpmPackageVersion → Option String)
    (fuel : Nat) (st : List (String × String)) (r : Request) (out : HandlerResult)
    (h : packageHandler reg nc marshal fuel st r = some out) :
    out.out.status = some 200
  ∨ (out.out.status = some 500 ∧ out.out.body = none ∧ lookupKV r.uri st = none
      ∧ ∃ pkgName pkgVersion t l, lookupKV "package" r.vars = some pkgName
          ∧ lookupKV "version" r.vars = some pkgVersion
          ∧ resolveDependencies reg nc fuel pkgName pkgVersion = some (t, l)
          ∧ marshal t = none)
  ∨ (out.out.status = none ∧ out.out.body = none ∧ lookupKV r.uri st = none
      ∧ (lookupKV "package" r.vars = none ∨ lookupKV "version" r.vars = none)) := by
  cases hc : lookupKV r.uri st with
  | some cached =>
    have hfirst : packageHandler reg nc marshal fuel st r =
        some ⟨⟨some 200, some cached⟩, st, []⟩ := by simp [packageHandler, hc]
    rw [hfirst] at h
    cases h
    exact .inl rfl
  | none =>
    cases hp : lookupKV "package" r.vars with
    | none =>
      have hfirst : packageHandler reg nc marshal fuel st r =
          some ⟨⟨none, none⟩, st, []⟩ := by simp [packageHandler, hc, hp]
      rw [hfirst] at h
      cases h
      exact .inr (.inr ⟨rfl, rfl, rfl, .inl rfl⟩)
    | some pkgName =>
      cases hv : lookupKV "version" r.vars with
      | none =>
        have hfirst : packageHandler reg nc marshal fuel st r =
            some ⟨⟨none, none⟩, st, []⟩ := by simp [packageHandler, hc, hp, hv]
        rw [hfirst] at h
        cases h
        exact .inr (.inr ⟨rfl, rfl, rfl, .inr rfl⟩)
      | some pkgVersion =>
        cases hres : resolveDependencies reg nc fuel pkgName pkgVersion with
        | none =>
          have hfirst : packageHandler reg nc marshal fuel st r = none := by
            simp [packageHandler, hc, hp, hv, hres]
          rw [hfirst] at h
          cases h
        | some pr =>
          obtain ⟨t, l⟩ := pr
          cases hmar : marshal t with
          | none =>
            have hfirst : packageHandler reg nc marshal fuel st r =
                some ⟨⟨some 500, none⟩, st, l⟩ := by
              simp [packageHandler, hc, hp, hv, hres, hmar]
            rw [hfirst] at h
            cases h
            exact .inr (.inl ⟨rfl, rfl, rfl, pkgName, pkgVersion, t, l,
              rfl, rfl, hres, hmar⟩)
          | some stringified =>
            have hfirst : packageHandler reg nc marshal fuel st r =
                some ⟨⟨some 200, some stringified⟩, (r.uri, stringified) :: st, l⟩ := by
              simp [packageHandler, hc, hp, hv, hres, hmar]
            rw [hfirst] at h
            cases h
            exact .inl rfl

/-- Witness for the amended C7: on the successful demo request the 200
outcome holds. -/
theorem c7_witness :
    ∃ out, packageHandler simpleReg demoNewConstraint demoMarshal 5 [] demoRequest
        = some out
      ∧ (out.out.status = some 200
        ∨ (out.out.status = some 500 ∧ out.out.body = none
            ∧ lookupKV demoRequest.uri ([] : List (String × String)) = none
            ∧ ∃ pkgName pkgVersion t l,
                lookupKV "package" demoRequest.vars = some pkgName
                ∧ lookupKV "version" demoRequest.vars = some pkgVersion
                ∧ resolveDependencies simpleReg demoNewConstraint 5 pkgName pkgVersion
                    = some (t, l)
                ∧ demoMarshal t = none)
        ∨ (out.out.status = none ∧ out.out.body = none
            ∧ lookupKV demoRequest.uri ([] : List (String × String)) = none
            ∧ (lookupKV "package" demoRequest.vars = none
              ∨ lookupKV "version" demoRequest.vars = none))) :=
  ⟨_, rfl, c7_request_level_outcomes simpleReg demoNewConstraint demoMarshal 5 []
      demoRequest _ rfl⟩
